import Mathlib

/-!
Shallow embedding of the Backblaze B2 backup agent integration
(`custom_components/backup_b2/backup.py`, `config_flow.py`, `__init__.py`),
together with a minimal model of the pieces of the Python runtime and the
b2sdk storage client that the adapter calls into.

Python strings are modelled as `List Char`; byte payloads as `List Nat`.
-/

namespace B2Backup

/-- Convert a Lean string literal to the `List Char` model of Python strings. -/
def chars (s : String) : List Char := s.toList

/-- Python's `sub in s` substring test on strings, via the infix relation. -/
def pyContains (sub s : List Char) : Bool := decide (sub <:+: s)

/-- Python's `s.startswith(p)`. -/
def pyStartsWith (p s : List Char) : Bool := p.isPrefixOf s

example : pyContains (chars r"2024") (chars r"ha-backup/2024-01-01T00.tar") = true := by decide

example : pyStartsWith (chars r"ha-backup") (chars r"ha-backup/x.tar") = true := by decide

/-- Index of the first occurrence of `c` in a character list (Python `str.find`,
restricted to the found case). -/
def firstIdxOf (c : Char) : List Char → Option Nat
  | [] => none
  | x :: xs => if x = c then some 0 else (firstIdxOf c xs).map (· + 1)

/-- Index of the last occurrence of `c` (Python `str.rfind`, found case). -/
def lastIdxOf (c : Char) (cs : List Char) : Option Nat :=
  (firstIdxOf c cs.reverse).map (fun j => cs.length - 1 - j)

/-- CPython's `pathlib.PurePath(...).name`: the final path component.  Models CPython's
parsing for the paths the adapter produces: trailing `'/'` characters are
dropped, then the segment after the last remaining `'/'` is returned. -/
def pyPathName (cs : List Char) : List Char :=
  ((cs.reverse.dropWhile (· = '/')).takeWhile (· ≠ '/')).reverse

/-- The suffix-stripping step of `pathlib.PurePath(...).stem` applied to a
final path component `name`: CPython computes `i = name.rfind('.')` and
returns `name[:i]` when `0 < i < len(name) - 1`, otherwise `name` itself. -/
def pyStemOfName (name : List Char) : List Char :=
  match lastIdxOf '.' name with
  | some i => if 0 < i ∧ i < name.length - 1 then name.take i else name
  | none => name

/-- CPython's `pathlib.PurePath(cs).stem`: the final component without its last suffix. -/
def pyStem (cs : List Char) : List Char := pyStemOfName (pyPathName cs)

example : pyStem (chars r"ha-backup/2024-01-01T00.tar") = chars r"2024-01-01T00" := by decide

example : pyStem (chars r"ha-backup/.tar") = chars r".tar" := by decide

/-- A file version as reported by the b2sdk bucket (`FileVersion`): its
server-side id `id_`, its `file_name`, the stored bytes (from which the
reported `size` derives), and its `upload_timestamp`. -/
structure FileVersion where
  id_ : List Char
  file_name : List Char
  content : List Nat
  upload_timestamp : Nat
deriving DecidableEq, Repr

/-- Accessor `FileVersion.size`: the byte size the server reports for the object. -/
def FileVersion.size (fv : FileVersion) : Nat := fv.content.length

/-- A b2sdk SDK-level exception (`b2sdk.v2.exception.B2Error`).  `notFound`
records whether the error is one of the SDK's not-found/resolution failures
(e.g. `FileNotPresent`, `NonExistentBucket`) as opposed to any other SDK
failure (authorization, rate limiting, transport). -/
structure B2Error where
  notFound : Bool
  code : Nat
deriving DecidableEq, Repr

/-- An exception in flight inside the worker function's `try:` block:
either the host's `BackupNotFound` raised by the adapter itself, or a
`B2Error` raised by an SDK call. -/
inductive PyExc where
  | backupNotFoundExc
  | b2 (e : B2Error)
deriving DecidableEq, Repr

/-- What the host finally sees from a failed adapter operation: the
host-defined `BackupNotFound` condition, or an SDK error that propagated
out of the adapter unchanged (a generic failure). -/
inductive AgentError where
  | backupNotFound
  | sdk (e : B2Error)
deriving DecidableEq, Repr

/-- The host-facing backup record (`homeassistant.components.backup.AgentBackup`)
with the four fields the adapter fills in. -/
structure AgentBackup where
  backup_id : List Char
  name : List Char
  created : Nat
  size : Nat
deriving DecidableEq, Repr

/-- The guard of the resolution scan in `async_download_backup` /
`async_delete_backup`:
`file_version.file_name.startswith(self._prefix) and backup_id in file_version.file_name`. -/
def matchesBackup (pfx backup_id : List Char) (fv : FileVersion) : Bool :=
  pyStartsWith pfx fv.file_name && pyContains backup_id fv.file_name

/-- The `for file_version in self._get_bucket().ls():` scan of `_download` in
`async_download_backup`: return the downloaded bytes of the first file version
matching the guard, raising `BackupNotFound` when the scan finds none; a
`B2Error` raised by `download_file_by_id(...).read()` (modelled by the oracle
`dl` on the file id) escapes the loop. -/
def downloadLoop (pfx backup_id : List Char) (dl : List Char → Except B2Error (List Nat)) :
    List FileVersion → Except PyExc (List Nat)
  | [] => .error .backupNotFoundExc
  | fv :: rest =>
    if matchesBackup pfx backup_id fv then
      match dl fv.id_ with
      | .ok data => .ok data
      | .error e => .error (.b2 e)
    else downloadLoop pfx backup_id dl rest

/-- Worker `_download` of `async_download_backup` including its `try/except`:
the bucket listing `lsRes` may itself raise a `B2Error`; any `B2Error` is
caught by `except b2e.B2Error` and re-raised as `BackupNotFound`, while the
adapter's own `BackupNotFound` (not a `B2Error`) propagates as itself. -/
def async_download_backup (pfx backup_id : List Char)
    (lsRes : Except B2Error (List FileVersion))
    (dl : List Char → Except B2Error (List Nat)) : Except AgentError (List Nat) :=
  match lsRes with
  | .error _ => .error .backupNotFound
  | .ok files =>
    match downloadLoop pfx backup_id dl files with
    | .ok data => .ok data
    | .error .backupNotFoundExc => .error .backupNotFound
    | .error (.b2 _) => .error .backupNotFound

/-- The scan of `_delete` in `async_delete_backup`: find the first file
version matching the guard, call
`delete_file_version(file_version.id_, file_version.file_name)` on it and
return; raise `BackupNotFound` when no file version matches.  Returns the
deleted version together with the remaining bucket contents; `delRes` is the
SDK outcome of the delete call, keyed by file id. -/
def deleteLoop (pfx backup_id : List Char) (delRes : List Char → Except B2Error Unit) :
    List FileVersion → Except PyExc (FileVersion × List FileVersion)
  | [] => .error .backupNotFoundExc
  | fv :: rest =>
    if matchesBackup pfx backup_id fv then
      match delRes fv.id_ with
      | .ok _ => .ok (fv, rest)
      | .error e => .error (.b2 e)
    else
      match deleteLoop pfx backup_id delRes rest with
      | .ok (d, rem) => .ok (d, fv :: rem)
      | .error e => .error e

/-- Worker `_delete` of `async_delete_backup` including its `try/except`: any
`B2Error` (from the listing, modelled by `lsRes`, or from
`delete_file_version`, modelled by `delRes`) is caught and re-raised as
`BackupNotFound`; on success the remaining bucket contents are returned. -/
def async_delete_backup (pfx backup_id : List Char)
    (lsRes : Except B2Error (List FileVersion))
    (delRes : List Char → Except B2Error Unit) : Except AgentError (List FileVersion) :=
  match lsRes with
  | .error _ => .error .backupNotFound
  | .ok files =>
    match deleteLoop pfx backup_id delRes files with
    | .ok (_, rem) => .ok rem
    | .error .backupNotFoundExc => .error .backupNotFound
    | .error (.b2 _) => .error .backupNotFound

/-- Method `async_download_backup` in full, including the initial
`await self._ensure_authorized()`: when the agent is not yet authorized this
calls `authorize_account` with no surrounding `try/except`, so a `B2Error`
raised there propagates to the caller unchanged (a generic failure), before
the worker and its error mapping ever run.  `authRes` is the outcome of the
authorization step (`.ok ()` when `self._authorized` is already set). -/
def downloadWithAuth (pfx backup_id : List Char)
    (authRes : Except B2Error Unit)
    (lsRes : Except B2Error (List FileVersion))
    (dl : List Char → Except B2Error (List Nat)) : Except AgentError (List Nat) :=
  match authRes with
  | .error e => .error (.sdk e)
  | .ok _ => async_download_backup pfx backup_id lsRes dl

/-- Method `async_delete_backup` in full, including the initial
`await self._ensure_authorized()`, whose `B2Error` likewise propagates to
the caller unchanged because no handler surrounds `authorize_account`. -/
def deleteWithAuth (pfx backup_id : List Char)
    (authRes : Except B2Error Unit)
    (lsRes : Except B2Error (List FileVersion))
    (delRes : List Char → Except B2Error Unit) : Except AgentError (List FileVersion) :=
  match authRes with
  | .error e => .error (.sdk e)
  | .ok _ => async_delete_backup pfx backup_id lsRes delRes

/-- The object key built by `async_upload_backup`:
`f"{self._prefix}/{backup.backup_id}.tar"`. -/
def uploadKey (pfx backup_id : List Char) : List Char :=
  pfx ++ '/' :: backup_id ++ chars r".tar"

/-- Modelled from the spec: the b2sdk bucket's `upload_bytes(data, filename)`
(external SDK call), a single atomic put that makes the new bytes the
current version under `filename` — "idempotent overwrite of the same key;
no partial-object visibility".  The bucket contents are the list of current
file versions, at most one per name. -/
def putObject (newFv : FileVersion) : List FileVersion → List FileVersion
  | [] => [newFv]
  | fv :: rest =>
    if fv.file_name = newFv.file_name then newFv :: rest
    else fv :: putObject newFv rest

/-- Method `async_upload_backup`: drain the stream chunks into a `BytesIO` buffer
(`buf.getvalue()` is the in-order concatenation `chunks.join`), then
`upload_bytes` the whole buffer under `uploadKey`.  `newId` and `ts` are the
file id and upload timestamp the server assigns to the new version. -/
def async_upload_backup (pfx backup_id : List Char) (chunks : List (List Nat))
    (newId : List Char) (ts : Nat) (files : List FileVersion) : List FileVersion :=
  putObject ⟨newId, uploadKey pfx backup_id, chunks.flatten, ts⟩ files

/-- The record construction inside `async_list_backups`:
`AgentBackup(backup_id=Path(file_name).stem, name=Path(file_name).name,
created=upload_timestamp, size=size)`. -/
def mkRecord (fv : FileVersion) : AgentBackup :=
  { backup_id := pyStem fv.file_name
    name := pyPathName fv.file_name
    created := fv.upload_timestamp
    size := fv.size }

/-- The `for file_version in self._get_bucket().ls():` loop of
`_list_backups` in `async_list_backups`: keep exactly the file versions whose
name starts with the configured prefix, mapping each to its record. -/
def listLoop (pfx : List Char) : List FileVersion → List AgentBackup
  | [] => []
  | fv :: rest =>
    if pyStartsWith pfx fv.file_name then mkRecord fv :: listLoop pfx rest
    else listLoop pfx rest

/-- Method `async_list_backups` on a successful bucket listing `files`. -/
def async_list_backups (pfx : List Char) (files : List FileVersion) : List AgentBackup :=
  listLoop pfx files

/-- States of `homeassistant.config_entries.ConfigEntryState` (host-defined). -/
inductive CEState where
  | notLoaded
  | loaded
  | setupError
  | setupRetry
  | setupInProgress
  | unloadInProgress
  | failedUnload
deriving DecidableEq, Repr

/-- The configuration data stored on a config entry: `entry.data[CONF_BUCKET]`
is mandatory, `entry.data.get(CONF_PREFIX, "ha-backup")` falls back to the
default when the key is absent. -/
structure EntryData where
  bucket : List Char
  pfxOpt : Option (List Char)
deriving DecidableEq, Repr

/-- A host config entry: its lifecycle state and its stored data. -/
structure ConfigEntry where
  state : CEState
  data : EntryData
deriving DecidableEq, Repr

/-- The fields `B2BackupAgent.__init__` binds from the entry data:
`_bucket_name = config[CONF_BUCKET]`,
`_prefix = config.get(CONF_PREFIX, "ha-backup")`,
`name = f"Backblaze B2 ({bucket})"`, `unique_id = f"{DOMAIN}_{bucket}"`. -/
structure B2BackupAgent where
  bucket_name : List Char
  pfx : List Char
  name : List Char
  unique_id : List Char
deriving DecidableEq, Repr

/-- Constructor `B2BackupAgent(hass, entry.data)`: the agent bound to the
entry's bucket and prefix. -/
def mkAgent (d : EntryData) : B2BackupAgent :=
  { bucket_name := d.bucket
    pfx := d.pfxOpt.getD (chars r"ha-backup")
    name := chars r"Backblaze B2 (" ++ d.bucket ++ [')']
    unique_id := chars r"b2_backup_" ++ d.bucket }

/-- Modelled from the host API: `hass.config_entries.async_loaded_entries(DOMAIN)`
returns the config entries of the domain currently in the `LOADED` state. -/
def async_loaded_entries (entries : List ConfigEntry) : List ConfigEntry :=
  entries.filter (fun e => e.state = CEState.loaded)

/-- The `for entry in loaded_entries:` loop of `async_get_backup_agents`,
which re-checks `entry.state is ConfigEntryState.LOADED` before constructing
an agent from `entry.data`. -/
def agentsLoop : List ConfigEntry → List B2BackupAgent
  | [] => []
  | e :: rest =>
    if e.state = CEState.loaded then mkAgent e.data :: agentsLoop rest
    else agentsLoop rest

/-- Discovery `async_get_backup_agents`: fetch the loaded entries, return `[]` early
when there are none, otherwise build one agent per loaded entry. -/
def async_get_backup_agents (entries : List ConfigEntry) : List B2BackupAgent :=
  let loadedEntries := async_loaded_entries entries
  if loadedEntries = [] then [] else agentsLoop loadedEntries

/-- Registration half of `async_register_backup_agents_listener`:
`hass.data.setdefault(DATA_BACKUP_AGENT_LISTENERS, []).append(listener)`.
Listeners are identified by `Nat` tokens (Python callables compare by
identity). -/
def registerListener (listeners : List Nat) (l : Nat) : List Nat :=
  listeners ++ [l]

/-- The `remove_listener` closure returned by
`async_register_backup_agents_listener`: `list.remove(listener)` deletes the
first occurrence; the `ValueError` raised when the listener is absent is
caught and only logged, leaving the list unchanged. -/
def removeListener (listeners : List Nat) (l : Nat) : List Nat :=
  listeners.erase l

/-- The outcome of `notify_backup_listeners`: which listeners were invoked,
in order, and which of those raised (their exception caught and logged). -/
structure NotifyResult where
  called : List Nat
  logged : List Nat
deriving DecidableEq, Repr

/-- Loop of `notify_backup_listeners`: `for listener in listeners: try: listener()
except Exception: log`.  `run` is each listener's behaviour when invoked. -/
def notify_backup_listeners (run : Nat → Except (List Char) Unit) :
    List Nat → NotifyResult
  | [] => ⟨[], []⟩
  | l :: rest =>
    let r := notify_backup_listeners run rest
    match run l with
    | .ok _ => ⟨l :: r.called, r.logged⟩
    | .error _ => ⟨l :: r.called, l :: r.logged⟩

/-- An exception escaping the `try:` block of
`B2BackupConfigFlow.async_step_user`: the `ValueError` that
`_validate_credentials` raises on any validation failure, or the host's
`AbortFlow` raised by `_abort_if_unique_id_configured()`.  In the host,
`AbortFlow` derives from `Exception` (via `FlowError` and
`HomeAssistantError`) and is not a `ValueError`. -/
inductive FlowExc where
  | valueError
  | abortFlow (reason : List Char)
deriving DecidableEq, Repr

/-- The result a config-flow step hands back to the host: a created entry,
the form redisplayed with an error map, or an aborted flow. -/
inductive FlowResult where
  | createEntry (title : List Char) (bucket : List Char)
  | showForm (errors : List ((List Char) × (List Char)))
  | abort (reason : List Char)
deriving DecidableEq, Repr

/-- Helper `B2BackupConfigFlow._validate_credentials`: authorize the account and
resolve the bucket by name; a `None` bucket or any exception from either SDK
call is wrapped into a single `ValueError`.  `authRes` is the outcome of
`authorize_account`, `bucketRes` of `get_bucket_by_name` (with `none`
standing for a `None` return). -/
def validate_credentials (authRes : Except B2Error Unit)
    (bucketRes : Except B2Error (Option Unit)) : Except FlowExc Unit :=
  match authRes with
  | .error _ => .error .valueError
  | .ok _ =>
    match bucketRes with
    | .error _ => .error .valueError
    | .ok none => .error .valueError
    | .ok (some _) => .ok ()

/-- The `try:` body of `async_step_user` on submitted input: validate the
credentials, then `async_set_unique_id(bucket)` followed by
`_abort_if_unique_id_configured()`, which raises
`AbortFlow("already_configured")` when an entry with this unique id (the
bucket name) exists; otherwise create the entry. -/
def stepUserBody (configuredIds : List (List Char)) (bucket : List Char)
    (authRes : Except B2Error Unit) (bucketRes : Except B2Error (Option Unit)) :
    Except FlowExc FlowResult :=
  match validate_credentials authRes bucketRes with
  | .error e => .error e
  | .ok _ =>
    if bucket ∈ configuredIds then
      .error (.abortFlow (chars r"already_configured"))
    else
      .ok (.createEntry (chars r"Backblaze B2 (" ++ bucket ++ [')']) bucket)

/-- Step `B2BackupConfigFlow.async_step_user`: with no input, show the blank form.
With input, run the `try:` body; `except ValueError` sets
`errors["base"] = "invalid_auth"`, and the following bare `except Exception`
catches every other exception — including the host's `AbortFlow`, which is an
`Exception` subclass — and sets `errors["base"] = "unknown"`; in both cases
the form is redisplayed and no entry is created. -/
def async_step_user (configuredIds : List (List Char))
    (userInput : Option (List Char))
    (authRes : Except B2Error Unit) (bucketRes : Except B2Error (Option Unit)) :
    FlowResult :=
  match userInput with
  | none => .showForm []
  | some bucket =>
    match stepUserBody configuredIds bucket authRes bucketRes with
    | .ok r => r
    | .error .valueError => .showForm [(chars r"base", chars r"invalid_auth")]
    | .error (.abortFlow _) => .showForm [(chars r"base", chars r"unknown")]

/-! ### Shared lemmas -/

/-- Whether a listener invocation raised. -/
def exceptFails (r : Except (List Char) Unit) : Bool :=
  match r with
  | .ok _ => false
  | .error _ => true

/-- The notification loop invokes exactly the registered listeners, in
registration order, whatever each invocation does. -/
theorem notify_called (run : Nat → Except (List Char) Unit) :
    ∀ listeners : List Nat, (notify_backup_listeners run listeners).called = listeners := by
  intro listeners
  induction listeners with
  | nil => rfl
  | cons l rest ih =>
    simp only [notify_backup_listeners]
    cases run l <;> simp [ih]

/-- The notification loop logs exactly the listeners whose invocation
raised, in order. -/
theorem notify_logged (run : Nat → Except (List Char) Unit) :
    ∀ listeners : List Nat,
      (notify_backup_listeners run listeners).logged
        = listeners.filter (fun l => exceptFails (run l)) := by
  intro listeners
  induction listeners with
  | nil => rfl
  | cons l rest ih =>
    simp only [notify_backup_listeners, List.filter_cons]
    cases h : run l <;> simp [h, ih, exceptFails]

/-! ### C6, C7: listener registration and notification -/

/-- C6: `notify_backup_listeners` calls every currently registered listener
exactly once, in registration order; a listener that raises is caught and
logged, and every later-registered listener is still called (the invoked
sequence equals the full listener list whatever each invocation does). -/
theorem c6_notify_isolates_failures (run : Nat → Except (List Char) Unit)
    (listeners : List Nat) :
    (notify_backup_listeners run listeners).called = listeners ∧
    (notify_backup_listeners run listeners).logged
      = listeners.filter (fun l => exceptFails (run l)) ∧
    (∀ l : Nat,
      (notify_backup_listeners run listeners).called.count l = listeners.count l) :=
  ⟨notify_called run listeners, notify_logged run listeners,
    fun l => by rw [notify_called run listeners]⟩

/-- C7: with the registered listener list in hand, one notification invokes
every entry exactly once; the unregister closure for a registered listener
removes exactly the first occurrence of that callback, and the next
notification invokes exactly the remaining N-1 entries. -/
theorem c7_unregister_removes_exactly_one (listeners : List Nat) (l : Nat)
    (run : Nat → Except (List Char) Unit) (h : l ∈ listeners) :
    (notify_backup_listeners run listeners).called = listeners ∧
    (∃ pre post, l ∉ pre ∧ listeners = pre ++ l :: post ∧
        removeListener listeners l = pre ++ post) ∧
    (removeListener listeners l).length + 1 = listeners.length ∧
    (notify_backup_listeners run (removeListener listeners l)).called
      = removeListener listeners l := by
  refine ⟨notify_called run listeners, ?_, ?_, notify_called run _⟩
  · obtain ⟨pre, post, hnot, heq, herase⟩ := List.exists_erase_eq h
    exact ⟨pre, post, hnot, heq, herase⟩
  · have hpos : 0 < listeners.length :=
      List.length_pos.mpr (List.ne_nil_of_mem h)
    rw [removeListener, List.length_erase_of_mem h]
    omega

/-- Concrete instance of `c7_unregister_removes_exactly_one` with three
registered listeners and the middle one unregistered. -/
theorem c7_unregister_removes_exactly_one_witness :
    (notify_backup_listeners (fun _ => Except.ok ()) [1, 2, 3]).called = [1, 2, 3] ∧
    (∃ pre post, 2 ∉ pre ∧ [1, 2, 3] = pre ++ 2 :: post ∧
        removeListener [1, 2, 3] 2 = pre ++ post) ∧
    (removeListener [1, 2, 3] 2).length + 1 = ([1, 2, 3] : List Nat).length ∧
    (notify_backup_listeners (fun _ => Except.ok ()) (removeListener [1, 2, 3] 2)).called
      = removeListener [1, 2, 3] 2 :=
  c7_unregister_removes_exactly_one [1, 2, 3] 2 (fun _ => Except.ok ()) (by decide)

/-! ### Resolution-scan characterizations -/

/-- The download scan resolves its target as the first listed file version
satisfying the guard. -/
theorem downloadLoop_eq_find (pfx bid : List Char)
    (dl : List Char → Except B2Error (List Nat)) (files : List FileVersion) :
    downloadLoop pfx bid dl files
      = match files.find? (matchesBackup pfx bid) with
        | none => .error .backupNotFoundExc
        | some fv =>
          match dl fv.id_ with
          | .ok data => .ok data
          | .error e => .error (.b2 e) := by
  induction files with
  | nil => rfl
  | cons fv rest ih =>
    by_cases h : matchesBackup pfx bid fv
    · simp [downloadLoop, h, List.find?_cons_of_pos _ h]
    · rw [List.find?_cons_of_neg _ h]
      simpa [downloadLoop, h] using ih

/-- The delete scan resolves its target as the first listed file version
satisfying the guard, and on success removes exactly that version. -/
theorem deleteLoop_eq_find (pfx bid : List Char)
    (delRes : List Char → Except B2Error Unit) (files : List FileVersion) :
    deleteLoop pfx bid delRes files
      = match files.find? (matchesBackup pfx bid) with
        | none => .error .backupNotFoundExc
        | some fv =>
          match delRes fv.id_ with
          | .ok _ => .ok (fv, files.eraseP (matchesBackup pfx bid))
          | .error e => .error (.b2 e) := by
  induction files with
  | nil => rfl
  | cons fv rest ih =>
    by_cases h : matchesBackup pfx bid fv
    · simp [deleteLoop, h, List.find?_cons_of_pos _ h, List.eraseP_cons_of_pos h]
    · rw [List.find?_cons_of_neg _ h]
      rw [List.eraseP_cons_of_neg h]
      simp only [deleteLoop, if_neg h, ih]
      cases hf : rest.find? (matchesBackup pfx bid) with
      | none => rfl
      | some fv' => cases hd : delRes fv'.id_ <;> simp [hd]

/-! ### C1, C2, C9: download/delete error mapping and resolution -/

/-- C1: when no remote object under the configured prefix has the backup id
in its file name, both download and delete surface exactly the host-facing
`BackupNotFound` condition, not a generic failure. -/
theorem c1_missing_id_reports_not_found (pfx bid : List Char)
    (files : List FileVersion)
    (dl : List Char → Except B2Error (List Nat))
    (delRes : List Char → Except B2Error Unit)
    (h : ∀ fv ∈ files, pyStartsWith pfx fv.file_name = true →
        pyContains bid fv.file_name = false) :
    async_download_backup pfx bid (.ok files) dl = .error .backupNotFound ∧
    async_delete_backup pfx bid (.ok files) delRes = .error .backupNotFound := by
  have hfind : files.find? (matchesBackup pfx bid) = none := by
    rw [List.find?_eq_none]
    intro fv hm
    simp only [matchesBackup, Bool.and_eq_true, not_and]
    intro hs hc
    rw [h fv hm hs] at hc
    exact Bool.false_ne_true hc
  constructor
  · rw [async_download_backup, downloadLoop_eq_find, hfind]
  · rw [async_delete_backup, deleteLoop_eq_find, hfind]

/-- Concrete instance of `c1_missing_id_reports_not_found`: id "missing" is
absent from a bucket holding one backup under the prefix and one unrelated
object. -/
theorem c1_missing_id_reports_not_found_witness :
    async_download_backup (chars r"ha-backup") (chars r"missing")
        (.ok [⟨chars r"A", chars r"ha-backup/2024.tar", [1], 0⟩,
              ⟨chars r"B", chars r"other/missing.tar", [2], 0⟩])
        (fun _ => .ok []) = .error .backupNotFound ∧
    async_delete_backup (chars r"ha-backup") (chars r"missing")
        (.ok [⟨chars r"A", chars r"ha-backup/2024.tar", [1], 0⟩,
              ⟨chars r"B", chars r"other/missing.tar", [2], 0⟩])
        (fun _ => .ok ()) = .error .backupNotFound :=
  c1_missing_id_reports_not_found (chars r"ha-backup") (chars r"missing")
    [⟨chars r"A", chars r"ha-backup/2024.tar", [1], 0⟩,
     ⟨chars r"B", chars r"other/missing.tar", [2], 0⟩]
    (fun _ => .ok []) (fun _ => .ok ()) (by decide)

/-- C2 as stated is false: a storage-SDK failure that is not a not-found
failure (here a `B2Error` with `notFound := false`, e.g. an authorization or
transport error raised during the listing, or during the download itself)
does not propagate unchanged — both operations convert it into the
host-facing `BackupNotFound`. -/
theorem c2_counterexample :
    async_download_backup (chars r"ha-backup") (chars r"b")
        (.error ⟨false, 401⟩) (fun _ => .ok []) = .error .backupNotFound ∧
    async_delete_backup (chars r"ha-backup") (chars r"b")
        (.error ⟨false, 401⟩) (fun _ => .ok ()) = .error .backupNotFound ∧
    async_download_backup (chars r"ha-backup") (chars r"b")
        (.ok [⟨chars r"i", chars r"ha-backup/b.tar", [1], 0⟩])
        (fun _ => .error ⟨false, 503⟩) = .error .backupNotFound ∧
    AgentError.backupNotFound ≠ AgentError.sdk ⟨false, 401⟩ :=
  ⟨rfl, rfl, by rfl, by decide⟩

/-- C2 amended: in download and delete, every SDK-level failure raised
inside the worker's `try` block — the listing, the resolution scan, the
download and the delete calls, whether a not-found failure or any other
`B2Error` — is translated into the single host-facing `BackupNotFound`
(after a successful authorization step the only outcomes are success and
`BackupNotFound`); only a `B2Error` raised by the initial
`_ensure_authorized` step, which runs outside the `try/except`, propagates
to the caller unchanged. -/
theorem c2_worker_sdk_errors_become_not_found (pfx bid : List Char)
    (e : B2Error) (lsRes : Except B2Error (List FileVersion))
    (dl : List Char → Except B2Error (List Nat))
    (delRes : List Char → Except B2Error Unit) :
    downloadWithAuth pfx bid (.error e) lsRes dl = .error (.sdk e) ∧
    deleteWithAuth pfx bid (.error e) lsRes delRes = .error (.sdk e) ∧
    downloadWithAuth pfx bid (.ok ()) (.error e) dl = .error .backupNotFound ∧
    deleteWithAuth pfx bid (.ok ()) (.error e) delRes = .error .backupNotFound ∧
    ((∃ data, downloadWithAuth pfx bid (.ok ()) lsRes dl = .ok data) ∨
      downloadWithAuth pfx bid (.ok ()) lsRes dl = .error .backupNotFound) ∧
    ((∃ rem, deleteWithAuth pfx bid (.ok ()) lsRes delRes = .ok rem) ∨
      deleteWithAuth pfx bid (.ok ()) lsRes delRes = .error .backupNotFound) := by
  refine ⟨rfl, rfl, rfl, rfl, ?_, ?_⟩
  · cases lsRes with
    | error e' => exact Or.inr rfl
    | ok files =>
      rw [downloadWithAuth, async_download_backup]
      cases downloadLoop pfx bid dl files with
      | ok data => exact Or.inl ⟨data, rfl⟩
      | error pe => cases pe <;> exact Or.inr rfl
  · cases lsRes with
    | error e' => exact Or.inr rfl
    | ok files =>
      rw [deleteWithAuth, async_delete_backup]
      cases deleteLoop pfx bid delRes files with
      | ok pr => exact Or.inl ⟨pr.2, rfl⟩
      | error pe => cases pe <;> exact Or.inr rfl

/-- C9: download and delete resolve their target as the first listed object
whose file name starts with the prefix and contains the backup id as a
substring; a successful delete removes exactly one object (the first match);
and a backup id that is a proper substring of another backup's file name
resolves to that other backup's object (shown on a concrete bucket, where
id "2024-01" fetches the object of backup "2024-01-01T00"). -/
theorem c9_first_substring_match_resolution (pfx bid : List Char)
    (files : List FileVersion)
    (dl : List Char → Except B2Error (List Nat))
    (delRes : List Char → Except B2Error Unit) :
    (∀ fv, files.find? (matchesBackup pfx bid) = some fv →
        async_download_backup pfx bid (.ok files) dl
          = match dl fv.id_ with
            | .ok data => .ok data
            | .error _ => .error .backupNotFound) ∧
    (∀ rem, async_delete_backup pfx bid (.ok files) delRes = .ok rem →
        rem.length + 1 = files.length ∧
        ∃ a fv b, files = a ++ fv :: b ∧ rem = a ++ b ∧
          matchesBackup pfx bid fv = true ∧
          ∀ x ∈ a, matchesBackup pfx bid x = false) ∧
    async_download_backup (chars r"ha-backup") (chars r"2024-01")
        (.ok [⟨chars r"idA", chars r"ha-backup/2024-01-01T00.tar", [1], 0⟩])
        (fun i => if i = chars r"idA" then .ok [9] else .ok [])
      = .ok [9] := by
  refine ⟨?_, ?_, by rfl⟩
  · intro fv hf
    rw [async_download_backup, downloadLoop_eq_find, hf]
    cases hd : dl fv.id_ <;> simp [hd]
  · intro rem hdel
    rw [async_delete_backup, deleteLoop_eq_find] at hdel
    cases hf : files.find? (matchesBackup pfx bid) with
    | none => rw [hf] at hdel; exact absurd hdel (by simp)
    | some fv =>
      rw [hf] at hdel
      cases hd : delRes fv.id_ with
      | error e => simp [hd] at hdel
      | ok u =>
        simp only [hd] at hdel
        have hrem : rem = files.eraseP (matchesBackup pfx bid) := by
          cases hdel; rfl
        have hmem : fv ∈ files := List.mem_of_find?_eq_some hf
        have hp : matchesBackup pfx bid fv = true := List.find?_some hf
        obtain ⟨fv', a, b, hnone, hp', hsplit, herase⟩ :=
          List.exists_of_eraseP hmem hp
        subst hrem
        refine ⟨?_, a, fv', b, hsplit, herase, hp', fun x hx => ?_⟩
        · rw [herase, hsplit]
          simp only [List.length_append, List.length_cons]
          omega
        · have := hnone x hx
          simpa using this

/-- Concrete instance of `c9_first_substring_match_resolution`: on a bucket
with one matching object, download returns its bytes and delete leaves the
bucket empty, removing exactly one object. -/
theorem c9_first_substring_match_resolution_witness :
    async_download_backup (chars r"p") (chars r"b")
        (.ok [⟨chars r"i1", chars r"p/b.tar", [1, 2], 0⟩])
        (fun _ => .ok [5]) = .ok [5] ∧
    ([] : List FileVersion).length + 1
      = [(⟨chars r"i1", chars r"p/b.tar", [1, 2], 0⟩ : FileVersion)].length := by
  have h := c9_first_substring_match_resolution (chars r"p") (chars r"b")
      [⟨chars r"i1", chars r"p/b.tar", [1, 2], 0⟩] (fun _ => .ok [5]) (fun _ => .ok ())
  exact ⟨h.1 ⟨chars r"i1", chars r"p/b.tar", [1, 2], 0⟩ (by rfl),
    (h.2.1 [] (by rfl)).1⟩

/-! ### C4, C5: listing and discovery -/

/-- The listing loop is the prefix filter followed by the record map. -/
theorem listLoop_eq_filter_map (pfx : List Char) (files : List FileVersion) :
    listLoop pfx files
      = (files.filter (fun fv => pyStartsWith pfx fv.file_name)).map mkRecord := by
  induction files with
  | nil => rfl
  | cons fv rest ih =>
    by_cases h : pyStartsWith pfx fv.file_name
    · simp [listLoop, h, List.filter_cons, ih]
    · simp [listLoop, h, List.filter_cons, ih]

/-- C4: listing returns exactly one record per remote object whose file name
starts with the configured prefix — the record carrying that object's upload
timestamp as creation time and its size in bytes — no record for any other
object, and the empty list when no object matches. -/
theorem c4_list_exactly_prefixed_objects (pfx : List Char)
    (files : List FileVersion) :
    async_list_backups pfx files
      = (files.filter (fun fv => pyStartsWith pfx fv.file_name)).map mkRecord ∧
    (async_list_backups pfx files).length
      = (files.filter (fun fv => pyStartsWith pfx fv.file_name)).length ∧
    (∀ fv ∈ files, pyStartsWith pfx fv.file_name = true →
        mkRecord fv ∈ async_list_backups pfx files ∧
        (mkRecord fv).created = fv.upload_timestamp ∧
        (mkRecord fv).size = fv.size) ∧
    ((∀ fv ∈ files, pyStartsWith pfx fv.file_name = false) →
        async_list_backups pfx files = []) := by
  have he := listLoop_eq_filter_map pfx files
  refine ⟨he, ?_, ?_, ?_⟩
  · rw [async_list_backups, he, List.length_map]
  · intro fv hm hs
    refine ⟨?_, rfl, rfl⟩
    rw [async_list_backups, he]
    exact List.mem_map_of_mem mkRecord (List.mem_filter.mpr ⟨hm, hs⟩)
  · intro hall
    rw [async_list_backups, he, List.filter_eq_nil_iff.mpr ?_, List.map_nil]
    intro fv hm
    rw [hall fv hm]
    exact Bool.false_ne_true

/-- Concrete instance of `c4_list_exactly_prefixed_objects`: a bucket with
one object under the prefix and one outside it. -/
theorem c4_list_exactly_prefixed_objects_witness :
    mkRecord ⟨chars r"A", chars r"ha-backup/x.tar", [1, 2], 11⟩
      ∈ async_list_backups (chars r"ha-backup")
          [⟨chars r"A", chars r"ha-backup/x.tar", [1, 2], 11⟩,
           ⟨chars r"B", chars r"media/z.bin", [3], 12⟩] ∧
    async_list_backups (chars r"ha-backup") [⟨chars r"B", chars r"media/z.bin", [3], 12⟩]
      = [] :=
  ⟨((c4_list_exactly_prefixed_objects (chars r"ha-backup")
      [⟨chars r"A", chars r"ha-backup/x.tar", [1, 2], 11⟩,
       ⟨chars r"B", chars r"media/z.bin", [3], 12⟩]).2.2.1
      ⟨chars r"A", chars r"ha-backup/x.tar", [1, 2], 11⟩ (by decide) (by decide)).1,
   (c4_list_exactly_prefixed_objects (chars r"ha-backup")
      [⟨chars r"B", chars r"media/z.bin", [3], 12⟩]).2.2.2 (by decide)⟩

/-- The discovery loop keeps exactly the loaded entries, building one agent
from each entry's data. -/
theorem agentsLoop_eq_filter_map (entries : List ConfigEntry) :
    agentsLoop entries
      = (entries.filter (fun e => e.state = CEState.loaded)).map
          (fun e => mkAgent e.data) := by
  induction entries with
  | nil => rfl
  | cons e rest ih =>
    by_cases h : e.state = CEState.loaded
    · simp [agentsLoop, h, List.filter_cons, ih]
    · simp [agentsLoop, h, List.filter_cons, ih]

/-- C5: discovery returns exactly one agent per config entry in the loaded
state — bound to that entry's bucket and its prefix (defaulted to
"ha-backup" when absent) — and entries in any other state contribute no
agent. -/
theorem c5_one_agent_per_loaded_entry (entries : List ConfigEntry) :
    async_get_backup_agents entries
      = (entries.filter (fun e => e.state = CEState.loaded)).map
          (fun e => mkAgent e.data) ∧
    (async_get_backup_agents entries).length
      = (entries.filter (fun e => e.state = CEState.loaded)).length ∧
    (∀ e ∈ entries, e.state = CEState.loaded →
        mkAgent e.data ∈ async_get_backup_agents entries ∧
        (mkAgent e.data).bucket_name = e.data.bucket ∧
        (mkAgent e.data).pfx = e.data.pfxOpt.getD (chars r"ha-backup")) ∧
    ((∀ e ∈ entries, e.state ≠ CEState.loaded) →
        async_get_backup_agents entries = []) := by
  have hmain : async_get_backup_agents entries
      = (entries.filter (fun e => e.state = CEState.loaded)).map
          (fun e => mkAgent e.data) := by
    rw [async_get_backup_agents]
    simp only [async_loaded_entries]
    by_cases h : entries.filter (fun e => decide (e.state = CEState.loaded)) = []
    · simp [h]
    · rw [if_neg h, agentsLoop_eq_filter_map, List.filter_filter]
      simp
  refine ⟨hmain, ?_, ?_, ?_⟩
  · rw [hmain, List.length_map]
  · intro e hm hs
    refine ⟨?_, rfl, rfl⟩
    rw [hmain]
    exact List.mem_map_of_mem _ (List.mem_filter.mpr ⟨hm, by simp [hs]⟩)
  · intro hall
    rw [hmain, List.filter_eq_nil_iff.mpr ?_, List.map_nil]
    intro e hm
    simp [hall e hm]

/-- Concrete instance of `c5_one_agent_per_loaded_entry`: one loaded entry
and one entry mid-setup yield exactly the loaded entry's agent. -/
theorem c5_one_agent_per_loaded_entry_witness :
    mkAgent ⟨chars r"ha-backups", some (chars r"ha-backup")⟩
      ∈ async_get_backup_agents
          [⟨CEState.loaded, ⟨chars r"ha-backups", some (chars r"ha-backup")⟩⟩,
           ⟨CEState.setupInProgress, ⟨chars r"other", none⟩⟩] ∧
    async_get_backup_agents [⟨CEState.setupInProgress, ⟨chars r"other", none⟩⟩]
      = [] :=
  ⟨((c5_one_agent_per_loaded_entry
      [⟨CEState.loaded, ⟨chars r"ha-backups", some (chars r"ha-backup")⟩⟩,
       ⟨CEState.setupInProgress, ⟨chars r"other", none⟩⟩]).2.2.1
      ⟨CEState.loaded, ⟨chars r"ha-backups", some (chars r"ha-backup")⟩⟩
      (by decide) (by decide)).1,
   (c5_one_agent_per_loaded_entry
      [⟨CEState.setupInProgress, ⟨chars r"other", none⟩⟩]).2.2.2 (by decide)⟩

/-! ### C3: upload writes exactly one object -/

/-- The put stores the new version in the bucket. -/
theorem mem_putObject (n : FileVersion) (files : List FileVersion) :
    n ∈ putObject n files := by
  induction files with
  | nil => exact List.mem_singleton_self n
  | cons fv rest ih =>
    rw [putObject]
    by_cases h : fv.file_name = n.file_name
    · rw [if_pos h]; exact List.mem_cons_self _ _
    · rw [if_neg h]; exact List.mem_cons_of_mem _ ih

/-- On a bucket with pairwise-distinct names, after a put the new version is
the only object under its key. -/
theorem putObject_filter_eq (n : FileVersion) (files : List FileVersion)
    (huniq : files.Pairwise (fun a b => a.file_name ≠ b.file_name)) :
    (putObject n files).filter (fun fv => fv.file_name = n.file_name) = [n] := by
  induction files with
  | nil => simp [putObject]
  | cons fv rest ih =>
    rw [List.pairwise_cons] at huniq
    obtain ⟨hfv, hrest⟩ := huniq
    rw [putObject]
    by_cases h : fv.file_name = n.file_name
    · rw [if_pos h, List.filter_cons_of_pos (by simp)]
      have hnil : rest.filter (fun fv => decide (fv.file_name = n.file_name)) = [] := by
        rw [List.filter_eq_nil_iff]
        intro b hb
        simp only [decide_eq_true_eq]
        intro hc
        exact hfv b hb (h.trans hc.symm)
      rw [hnil]
    · rw [if_neg h, List.filter_cons_of_neg (by simp [h])]
      exact ih hrest

/-- A put leaves the objects under every other key unchanged. -/
theorem putObject_filter_ne (n : FileVersion) (files : List FileVersion) :
    (putObject n files).filter (fun fv => fv.file_name ≠ n.file_name)
      = files.filter (fun fv => fv.file_name ≠ n.file_name) := by
  induction files with
  | nil => simp [putObject]
  | cons fv rest ih =>
    rw [putObject]
    by_cases h : fv.file_name = n.file_name
    · rw [if_pos h]
      rw [List.filter_cons_of_neg (by simp), List.filter_cons_of_neg (by simp [h])]
    · rw [if_neg h]
      rw [List.filter_cons_of_pos (by simp [h]), List.filter_cons_of_pos (by simp [h])]
      rw [ih]

/-- C3: upload drains the stream chunks into one buffer and writes exactly
one remote object, keyed `{prefix}/{backup_id}.tar`, whose content is the
in-order concatenation of the chunks; every other object is untouched.  On
the concrete scenario (prefix "ha-backup", id "2024-01-01T00", payload
"abc") the key is `ha-backup/2024-01-01T00.tar` and a subsequent listing
returns exactly one record of size 3. -/
theorem c3_upload_single_object (pfx bid : List Char) (chunks : List (List Nat))
    (newId : List Char) (ts : Nat) (files : List FileVersion)
    (huniq : files.Pairwise (fun a b => a.file_name ≠ b.file_name)) :
    (async_upload_backup pfx bid chunks newId ts files).filter
        (fun fv => fv.file_name = uploadKey pfx bid)
      = [⟨newId, uploadKey pfx bid, chunks.flatten, ts⟩] ∧
    (async_upload_backup pfx bid chunks newId ts files).filter
        (fun fv => fv.file_name ≠ uploadKey pfx bid)
      = files.filter (fun fv => fv.file_name ≠ uploadKey pfx bid) ∧
    uploadKey (chars r"ha-backup") (chars r"2024-01-01T00")
      = chars r"ha-backup/2024-01-01T00.tar" ∧
    async_list_backups (chars r"ha-backup")
        (async_upload_backup (chars r"ha-backup") (chars r"2024-01-01T00")
          [[97, 98, 99]] (chars r"id1") 7 [])
      = [{ backup_id := chars r"2024-01-01T00", name := chars r"2024-01-01T00.tar",
           created := 7, size := 3 }] := by
  refine ⟨?_, ?_, by decide, by decide⟩
  · exact putObject_filter_eq ⟨newId, uploadKey pfx bid, chunks.flatten, ts⟩ files huniq
  · exact putObject_filter_ne ⟨newId, uploadKey pfx bid, chunks.flatten, ts⟩ files

/-- Concrete instance of `c3_upload_single_object`: uploading the two-chunk
payload `[1], [2]` into a bucket already holding an unrelated object. -/
theorem c3_upload_single_object_witness :
    (async_upload_backup (chars r"p") (chars r"b") [[1], [2]] (chars r"i") 0
        [⟨chars r"o", chars r"other.bin", [9], 4⟩]).filter
        (fun fv => fv.file_name = uploadKey (chars r"p") (chars r"b"))
      = [⟨chars r"i", uploadKey (chars r"p") (chars r"b"), ([[1], [2]] : List (List Nat)).flatten, 0⟩] ∧
    (async_upload_backup (chars r"p") (chars r"b") [[1], [2]] (chars r"i") 0
        [⟨chars r"o", chars r"other.bin", [9], 4⟩]).filter
        (fun fv => fv.file_name ≠ uploadKey (chars r"p") (chars r"b"))
      = [(⟨chars r"o", chars r"other.bin", [9], 4⟩ : FileVersion)].filter
          (fun fv => fv.file_name ≠ uploadKey (chars r"p") (chars r"b")) :=
  ⟨(c3_upload_single_object (chars r"p") (chars r"b") [[1], [2]] (chars r"i") 0
      [⟨chars r"o", chars r"other.bin", [9], 4⟩] (by simp)).1,
   (c3_upload_single_object (chars r"p") (chars r"b") [[1], [2]] (chars r"i") 0
      [⟨chars r"o", chars r"other.bin", [9], 4⟩] (by simp)).2.1⟩

/-! ### C10: round-trip of the key scheme through the listing -/

/-- Lemma: `takeWhile` keeps a block of satisfying characters and stops at the
first failing one. -/
theorem takeWhile_append_stop (p : Char → Bool) (xs : List Char) (y : Char)
    (ys : List Char) (hx : ∀ c ∈ xs, p c = true) (hy : p y = false) :
    (xs ++ y :: ys).takeWhile p = xs := by
  induction xs with
  | nil => simp [List.takeWhile_cons, hy]
  | cons a as ih =>
    have ha : p a = true := hx a (List.mem_cons_self a as)
    rw [List.cons_append, List.takeWhile_cons, ha]
    simp only [if_true]
    rw [ih (fun c hc => hx c (List.mem_cons_of_mem a hc))]

/-- The final path component of the upload key is `{backup_id}.tar` whenever
the backup id contains no `'/'`. -/
theorem pyPathName_uploadKey (pfx bid : List Char) (hns : '/' ∉ bid) :
    pyPathName (uploadKey pfx bid) = bid ++ chars r".tar" := by
  have h1 : (uploadKey pfx bid).reverse
      = ('r' :: 'a' :: 't' :: '.' :: bid.reverse) ++ ('/' :: pfx.reverse) := by
    rw [uploadKey]
    simp [chars, List.reverse_append]
  rw [pyPathName, h1]
  have h2 : (('r' :: 'a' :: 't' :: '.' :: bid.reverse) ++ ('/' :: pfx.reverse)).dropWhile
        (fun c => decide (c = '/'))
      = ('r' :: 'a' :: 't' :: '.' :: bid.reverse) ++ ('/' :: pfx.reverse) := by
    rw [List.cons_append, List.dropWhile_cons]
    simp
  rw [h2]
  rw [takeWhile_append_stop _ ('r' :: 'a' :: 't' :: '.' :: bid.reverse) '/' pfx.reverse
      ?_ (by simp)]
  · simp [chars]
  · intro c hc
    simp only [List.mem_cons] at hc
    rcases hc with h | h | h | h | h
    all_goals first
      | (subst h; decide)
      | (have : c ∈ bid := List.mem_reverse.mp h
         simp only [decide_eq_true_eq]
         intro hcc
         exact hns (hcc ▸ this))

/-- Stripping the `.tar` suffix from `{backup_id}.tar` recovers a non-empty
backup id. -/
theorem pyStemOfName_tar (bid : List Char) (hne : bid ≠ []) :
    pyStemOfName (bid ++ chars r".tar") = bid := by
  have hrev : (bid ++ chars r".tar").reverse = 'r' :: 'a' :: 't' :: '.' :: bid.reverse := by
    simp [chars, List.reverse_append]
  have hfi : firstIdxOf '.' (bid ++ chars r".tar").reverse = some 3 := by
    rw [hrev]
    rw [firstIdxOf, if_neg (by decide)]
    rw [firstIdxOf, if_neg (by decide)]
    rw [firstIdxOf, if_neg (by decide)]
    rw [firstIdxOf, if_pos rfl]
    rfl
  have hlen : (bid ++ chars r".tar").length = bid.length + 4 := by
    simp [chars]
  have hpos : 0 < bid.length := List.length_pos.mpr hne
  rw [pyStemOfName, lastIdxOf, hfi]
  simp only [Option.map_some']
  rw [hlen]
  have hidx : bid.length + 4 - 1 - 3 = bid.length := by omega
  rw [hidx]
  rw [if_pos ⟨hpos, by omega⟩]
  exact List.take_left bid (chars r".tar")

/-- The listing's id derivation inverts the upload key scheme for every
non-empty backup id without `'/'`. -/
theorem pyStem_uploadKey (pfx bid : List Char) (hne : bid ≠ []) (hns : '/' ∉ bid) :
    pyStem (uploadKey pfx bid) = bid := by
  rw [pyStem, pyPathName_uploadKey pfx bid hns, pyStemOfName_tar bid hne]

/-- C10 as stated is false at the empty backup id: `""` contains no `'/'`,
yet after uploading it (object key `ha-backup/.tar`) the listing's only
record has backup_id `".tar"`, not `""` — `Path(".tar").stem` keeps the
leading-dot name whole, so no record carries the original id. -/
theorem c10_counterexample :
    ('/' ∉ ([] : List Char)) ∧
    (∀ r ∈ async_list_backups (chars r"ha-backup")
        (async_upload_backup (chars r"ha-backup") [] [[97]] (chars r"id0") 3 []),
      r.backup_id ≠ ([] : List Char)) ∧
    (async_list_backups (chars r"ha-backup")
        (async_upload_backup (chars r"ha-backup") [] [[97]] (chars r"id0") 3 [])).map
        AgentBackup.backup_id = [chars r".tar"] := by
  decide

/-- C10 amended: for every non-empty backup_id containing no `'/'`, after
upload writes `{prefix}/{backup_id}.tar` a subsequent listing contains a
record whose backup_id equals the original, because the listing derives the
id as the stem of the file name, inverting the key scheme. -/
theorem c10_roundtrip_nonempty_id (pfx bid : List Char) (chunks : List (List Nat))
    (newId : List Char) (ts : Nat) (files : List FileVersion)
    (hne : bid ≠ []) (hns : '/' ∉ bid) :
    ∃ r ∈ async_list_backups pfx (async_upload_backup pfx bid chunks newId ts files),
      r.backup_id = bid := by
  refine ⟨mkRecord ⟨newId, uploadKey pfx bid, chunks.flatten, ts⟩, ?_, ?_⟩
  · rw [async_list_backups, listLoop_eq_filter_map]
    apply List.mem_map_of_mem
    apply List.mem_filter.mpr
    refine ⟨mem_putObject _ _, ?_⟩
    simp only [pyStartsWith, uploadKey, decide_eq_true_eq]
    rw [List.isPrefixOf_iff_prefix]
    exact (List.prefix_append _ _).trans (List.prefix_append _ _)
  · exact pyStem_uploadKey pfx bid hne hns

/-- Concrete instance of `c10_roundtrip_nonempty_id` with backup id "b". -/
theorem c10_roundtrip_nonempty_id_witness :
    ∃ r ∈ async_list_backups (chars r"ha-backup")
        (async_upload_backup (chars r"ha-backup") (chars r"b") [[1]] (chars r"i") 2 []),
      r.backup_id = chars r"b" :=
  c10_roundtrip_nonempty_id (chars r"ha-backup") (chars r"b") [[1]] (chars r"i") 2 []
    (by decide) (by decide)

/-! ### C8: config flow -/

/-- C8 at the duplicate-bucket input: with valid credentials and an entry
already configured for the same bucket, `_abort_if_unique_id_configured`
raises `AbortFlow`, but the step's own bare `except Exception` catches it,
so the flow does not abort with "already configured": it redisplays the
form with the "unknown" error and creates no entry.  For contrast, a fresh
bucket with valid credentials creates the entry, and a validation failure
surfaces the single "invalid_auth" form error. -/
theorem c8_duplicate_bucket_not_aborted :
    async_step_user [chars r"ha-backups"] (some (chars r"ha-backups"))
        (.ok ()) (.ok (some ()))
      = .showForm [(chars r"base", chars r"unknown")] ∧
    (∀ reason, async_step_user [chars r"ha-backups"] (some (chars r"ha-backups"))
        (.ok ()) (.ok (some ())) ≠ .abort reason) ∧
    (∀ t b, async_step_user [chars r"ha-backups"] (some (chars r"ha-backups"))
        (.ok ()) (.ok (some ())) ≠ .createEntry t b) ∧
    async_step_user [chars r"ha-backups"] (some (chars r"other"))
        (.ok ()) (.ok (some ()))
      = .createEntry (chars r"Backblaze B2 (other)") (chars r"other") ∧
    async_step_user [chars r"ha-backups"] (some (chars r"other"))
        (.error ⟨false, 401⟩) (.ok (some ()))
      = .showForm [(chars r"base", chars r"invalid_auth")] := by
  have h0 : async_step_user [chars r"ha-backups"] (some (chars r"ha-backups"))
      (.ok ()) (.ok (some ()))
      = .showForm [(chars r"base", chars r"unknown")] := by decide
  refine ⟨h0, ?_, ?_, by decide, by decide⟩
  · intro reason h
    rw [h0] at h
    exact FlowResult.noConfusion h
  · intro t b h
    rw [h0] at h
    exact FlowResult.noConfusion h

end B2Backup
